import Mathlib

/-!
# Verification of the Govinda Mitra audio/TTS utility layer

Shallow embedding of the audio helper module (src/utils/audio.ts and its
revisions src/unnamed/part_000, part_003) and of the two serverless proxy
handlers (src/api/generate-tts.js, src/api/narada.js, revision
src/unnamed/part_004), together with proofs of the testable properties
stated in the specification.

Bytes are modelled as `Nat` values `< 256`, strings as `List Char` or
`String`, 16-bit PCM samples as `Int`, and normalized audio samples as `ℚ`.
-/

namespace GovindaMitra

/-- ASCII whitespace test, covering the characters the JavaScript sources
actually manipulate (the `\s` class and `String.trim` additionally accept
rarer Unicode spaces, which never occur in the repository's data). -/
def isSpaceChar (c : Char) : Bool :=
  c == ' ' || c == '\t' || c == '\n' || c == '\r'

/-- `String.prototype.trim`: drop whitespace from both ends. -/
def trimChars (l : List Char) : List Char :=
  ((l.dropWhile isSpaceChar).reverse.dropWhile isSpaceChar).reverse

/-! ## PCM decoding (decodeAudioData)

`src/unnamed/part_000` and `src/unnamed/part_003` read little-endian signed
16-bit samples and normalize asymmetrically
(`val < 0 ? val / 32768 : val / 32767`), while the second revision inside
`src/utils/audio.ts` (lines 568-586) computes
`dataInt16[i * numChannels + channel] / 32768.0` for every sample. -/

/-- Little-endian signed 16-bit reinterpretation of two bytes
(`DataView.getInt16(i * 2, true)` / `Int16Array` element). -/
def toInt16 (lo hi : Nat) : Int :=
  let u := lo + 256 * hi
  if u < 32768 then (u : Int) else (u : Int) - 65536

/-- Successive byte pairs of the payload as signed 16-bit samples; a trailing
odd byte is dropped (`Math.floor(data.byteLength / 2)`). -/
def bytesToInt16 : List Nat → List Int
  | lo :: hi :: rest => toInt16 lo hi :: bytesToInt16 rest
  | _ => []

/-- Uniform normalization used by `decodeAudioData` in `src/utils/audio.ts`
(lines 568-586): every sample is divided by 32768. -/
def normalizeUniform (v : Int) : ℚ := (v : ℚ) / 32768

/-- Asymmetric normalization used by `decodeAudioData` in
`src/unnamed/part_000` and `src/unnamed/part_003`:
`val < 0 ? val / 32768 : val / 32767`. -/
def normalizeAsym (v : Int) : ℚ :=
  if v < 0 then (v : ℚ) / 32768 else (v : ℚ) / 32767

/-- `decodeAudioData` from `src/utils/audio.ts` (second revision,
lines 568-586): de-interleaves `frameCount = length / numChannels` frames per
channel and writes `dataInt16[i * numChannels + channel] / 32768.0`. -/
def decodeAudioData (data : List Nat) (numChannels : Nat) : List (List ℚ) :=
  let dataInt16 := bytesToInt16 data
  let frameCount := dataInt16.length / numChannels
  (List.range numChannels).map fun channel =>
    (List.range frameCount).map fun i =>
      normalizeUniform (dataInt16.getD (i * numChannels + channel) 0)

/-- `decodeAudioData` from `src/unnamed/part_000` (lines 255-275): writes
channel 0 only, one frame per 16-bit little-endian sample, normalized
asymmetrically. -/
def decodeAudioDataP0 (data : List Nat) : List ℚ :=
  (bytesToInt16 data).map normalizeAsym

/-- `decodeAudioData` from `src/unnamed/part_003` (lines 256-278):
de-interleaved per channel, asymmetric normalization; an empty payload yields
a one-frame silent buffer. -/
def decodeAudioDataP3 (data : List Nat) (numChannels : Nat) : List (List ℚ) :=
  let int16 := bytesToInt16 data
  if int16.length = 0 then List.replicate numChannels [(0 : ℚ)]
  else
    let frameCount := int16.length / numChannels
    (List.range numChannels).map fun ch =>
      (List.range frameCount).map fun i =>
        normalizeAsym (int16.getD (i * numChannels + ch) 0)

/-! ## Base64 codec (encode / decode, src/unnamed/part_003 lines 99-112)

`encode` maps each byte to the character with that code and applies `btoa`;
`decode` strips whitespace, applies `atob` and reads the char codes back.
We model `btoa`/`atob` on byte lists directly (the intermediate "binary
string" is the identity on code units below 256). -/

/-- The standard base64 alphabet used by `btoa`/`atob`. -/
def b64Alphabet : List Char :=
  "ABCDEFGHIJKLMNOPQRSTUVWXYZabcdefghijklmnopqrstuvwxyz0123456789+/".toList

/-- Character for a 6-bit group. -/
def b64char (n : Nat) : Char := b64Alphabet.getD n 'A'

/-- Index of a character in the base64 alphabet (`none` for characters
outside it, such as `=` or invalid input). -/
def decodeB64Char (c : Char) : Option Nat := b64Alphabet.findIdx? (· = c)

/-- `window.btoa` on a list of byte values: groups of three bytes become four
alphabet characters; a final group of one or two bytes is padded with `=`. -/
def btoa : List Nat → List Char
  | [] => []
  | [a] => [b64char (a / 4), b64char (a % 4 * 16), '=', '=']
  | [a, b] => [b64char (a / 4), b64char (a % 4 * 16 + b / 16),
      b64char (b % 16 * 4), '=']
  | a :: b :: c :: rest =>
      b64char (a / 4) :: b64char (a % 4 * 16 + b / 16) ::
      b64char (b % 16 * 4 + c / 64) :: b64char (c % 64) :: btoa rest

/-- Decode a two-character final group (one byte). -/
def atobGroup1 (c1 c2 : Char) : Option (List Nat) :=
  match decodeB64Char c1, decodeB64Char c2 with
  | some n1, some n2 => some [n1 * 4 + n2 / 16]
  | _, _ => none

/-- Decode a three-character final group (two bytes). -/
def atobGroup2 (c1 c2 c3 : Char) : Option (List Nat) :=
  match decodeB64Char c1, decodeB64Char c2, decodeB64Char c3 with
  | some n1, some n2, some n3 =>
      some [n1 * 4 + n2 / 16, n2 % 16 * 16 + n3 / 4]
  | _, _, _ => none

/-- `window.atob` (forgiving base64): four-character groups yield three
bytes; `=` padding is accepted only at the very end; malformed input yields
`none` (the browser throws a `DOMException`, i.e. the repository's `decode`
rethrows). -/
def atob : List Char → Option (List Nat)
  | [] => some []
  | [c1, c2] => atobGroup1 c1 c2
  | [c1, c2, c3] => if c3 = '=' then atobGroup1 c1 c2 else atobGroup2 c1 c2 c3
  | c1 :: c2 :: c3 :: c4 :: rest =>
      if c3 = '=' then
        if c4 = '=' ∧ rest = [] then atobGroup1 c1 c2 else none
      else if c4 = '=' then
        if rest = [] then atobGroup2 c1 c2 c3 else none
      else
        match decodeB64Char c1, decodeB64Char c2, decodeB64Char c3,
            decodeB64Char c4, atob rest with
        | some n1, some n2, some n3, some n4, some tail =>
            some ((n1 * 4 + n2 / 16) :: (n2 % 16 * 16 + n3 / 4) ::
              (n3 % 4 * 64 + n4) :: tail)
        | _, _, _, _, _ => none
  | _ => none

/-- `encode` (src/unnamed/part_003): bytes to base64 text. -/
def encode (bytes : List Nat) : List Char := btoa bytes

/-- `decode` (src/unnamed/part_003 and src/utils/audio.ts): strip whitespace,
then `atob`, then read the byte values back. -/
def decode (s : List Char) : Option (List Nat) :=
  atob (s.filter fun c => !isSpaceChar c)

/-! ## Native speech fallback: speak (src/utils/audio.ts lines 254-324)

The chunker is the JavaScript global match of the pattern
alternating a greedy run of non-terminators followed by a greedy run of the
sentence terminators `. ! ?`, or else a maximal whitespace-free token
(whose trailing lookahead for whitespace-or-end always succeeds after a
greedy non-whitespace run). When no match exists the whole text is the only
raw chunk; raw chunks are trimmed and empties dropped. -/

/-- Sentence-terminator class of the chunking pattern. -/
def isTermChar (c : Char) : Bool := c == '.' || c == '!' || c == '?'

/-- One attempt of the chunking pattern at the head of the text:
first alternative (sentence with trailing punctuation), then second
alternative (non-whitespace token). Returns the match and the rest. -/
def matchChunkAt (l : List Char) : Option (List Char × List Char) :=
  let a1 := l.takeWhile fun c => !isTermChar c
  let r1 := l.drop a1.length
  if a1 ≠ [] ∧ r1 ≠ [] then
    let b1 := r1.takeWhile isTermChar
    some (a1 ++ b1, r1.drop b1.length)
  else
    let a2 := l.takeWhile fun c => !isSpaceChar c
    if a2 ≠ [] then some (a2, l.drop a2.length) else none

/-- Global scanning of the chunking pattern: collect successive matches,
advancing one character when no match starts at the current position. The
fuel argument is the length of the text (each step consumes at least one
character). -/
def scanChunksAux : Nat → List Char → List (List Char)
  | 0, _ => []
  | _ + 1, [] => []
  | fuel + 1, c :: rest =>
    match matchChunkAt (c :: rest) with
    | some (m, r) => m :: scanChunksAux fuel r
    | none => scanChunksAux fuel rest

/-- `text.match(pattern)` for the chunking pattern. -/
def scanChunks (l : List Char) : List (List Char) := scanChunksAux l.length l

/-- The chunk list computed by `speak`: raw matches (or the whole text when
there is no match), trimmed, with empty chunks dropped. -/
def chunkText (t : List Char) : List (List Char) :=
  let ms := scanChunks t
  let raw := if ms.isEmpty then [t] else ms
  (raw.map trimChars).filter fun c => !c.isEmpty

/-- Observable events of a `speak` run: an utterance being submitted to the
speech engine, an utterance completing (its `onend` or `onerror` firing,
which the code treats identically), and the completion callback `onEnd`. -/
inductive SpeakEvent
  | submit (chunk : List Char)
  | chunkDone
  | cbInvoked
deriving DecidableEq

/-- The `playNextChunk` loop: stops (invoking `onEnd`) when the stop flag is
set or the chunk index passes the end; otherwise submits the next utterance
and continues from its `onend`/`onerror` handler. -/
def playChunks (stopped : Bool) : List (List Char) → List SpeakEvent
  | [] => [SpeakEvent.cbInvoked]
  | c :: rest =>
    if stopped then [SpeakEvent.cbInvoked]
    else SpeakEvent.submit c :: SpeakEvent.chunkDone :: playChunks stopped rest

/-- `speak(text, language, onEnd)` event trace (speech synthesis available,
no stop request during playback): chunk the text, invoke `onEnd` at once if
no chunk remains, otherwise run the sequential chunk loop. -/
def speak (t : List Char) : List SpeakEvent :=
  let chunks := chunkText t
  if chunks.isEmpty then [SpeakEvent.cbInvoked]
  else playChunks false chunks

/-- Number of utterances submitted in a trace. -/
def submitCount (evs : List SpeakEvent) : Nat :=
  (evs.filter fun e => match e with | SpeakEvent.submit _ => true | _ => false).length

/-- Number of `onEnd` invocations in a trace. -/
def cbCount (evs : List SpeakEvent) : Nat :=
  (evs.filter fun e => e == SpeakEvent.cbInvoked).length

/-! ## Audio playback engine (src/utils/audio.ts, first revision)

State of the module-level globals: the set of buffer sources currently
connected to the output destination, the references `globalSource` and
`keepAliveSource`, and whether a native-speech utterance sequence is active.
Source identities are natural numbers, allocated by a counter. -/

structure EngineState where
  /-- Identities of buffer sources currently connected to `ctx.destination`. -/
  connected : List Nat
  /-- The `globalSource` module variable. -/
  globalSource : Option Nat
  /-- The `keepAliveSource` module variable. -/
  keepAliveSource : Option Nat
  /-- Whether a native speech utterance sequence is in progress. -/
  speaking : Bool
  /-- Next fresh source identity. -/
  nextId : Nat
deriving DecidableEq

/-- `source.disconnect()`. -/
def disconnectSrc (s : EngineState) (i : Nat) : EngineState :=
  { s with connected := s.connected.filter (· ≠ i) }

/-- `stopKeepAlive` (lines 100-106): stop, disconnect and release the
keep-alive source if present. -/
def stopKeepAlive (s : EngineState) : EngineState :=
  match s.keepAliveSource with
  | some k => { disconnectSrc s k with keepAliveSource := none }
  | none => s

/-- `stopNativeAudio`: cancel any native-speech utterances. -/
def stopNativeAudio (s : EngineState) : EngineState := { s with speaking := false }

/-- `stopGlobalAudio` (lines 222-235): stop keep-alive, cancel native
speech, then stop, disconnect and release `globalSource` if present. -/
def stopGlobalAudio (s : EngineState) : EngineState :=
  let s1 := stopNativeAudio (stopKeepAlive s)
  match s1.globalSource with
  | some g => { disconnectSrc s1 g with globalSource := none }
  | none => s1

/-- `startSource` (lines 206-220), success path: create a fresh buffer
source, connect it to the destination, start it, and store it in
`globalSource`. -/
def startSource (s : EngineState) : EngineState :=
  { s with
    connected := s.connected ++ [s.nextId]
    globalSource := some s.nextId
    nextId := s.nextId + 1 }

/-- `playGlobalAudio` (lines 188-204): always stop the previous session
first, then start the new source (in both the running and the
resumed-from-suspension branch, `startSource` runs after the stop). -/
def playGlobalAudio (s : EngineState) : EngineState :=
  startSource (stopGlobalAudio s)

/-- The states passed through while `playGlobalAudio` executes: the entry
state, the state after the previous session has been fully stopped, and the
state after the new source is connected and started. -/
def playGlobalAudioTrace (s : EngineState) : List EngineState :=
  [s, stopGlobalAudio s, playGlobalAudio s]

/-- Well-formedness of the module state: every connected source is one of
the two retained references, each retained reference is connected, and
identities are below the allocation counter. -/
def EngineWf (s : EngineState) : Prop :=
  (∀ i ∈ s.connected, s.globalSource = some i ∨ s.keepAliveSource = some i) ∧
  (∀ i, s.globalSource = some i → i ∈ s.connected) ∧
  (∀ i, s.keepAliveSource = some i → i ∈ s.connected) ∧
  (∀ i ∈ s.connected, i < s.nextId)

instance (s : EngineState) : Decidable (EngineWf s) := by
  unfold EngineWf
  exact instDecidableAnd

/-! ## Completion-callback bookkeeping for playGlobalAudio (C2)

A machine recording which completion callbacks have been invoked. A live
source carries its `onended` handler and whether its `ended` event has
already fired (the platform fires it at most once per source); stopping a
session clears the handler before stopping the source, which is exactly how
`stopGlobalAudio` suppresses the callback of a preempted session. -/

structure SourceCb where
  /-- The `onended` handler (a callback identity), if any. -/
  handler : Option Nat
  /-- Whether this source's `ended` event has already fired. -/
  fired : Bool
deriving DecidableEq

structure CbState where
  /-- The current `globalSource`, with its callback bookkeeping. -/
  src : Option SourceCb
  /-- Callback identities invoked so far, in order. -/
  invoked : List Nat
deriving DecidableEq

/-- Operations on the playback engine that affect completion callbacks. -/
inductive AudioOp
  /-- `playGlobalAudio(buffer, cb)`; `ok` tells whether source
  construction/start succeeds (`startSource`'s try block). -/
  | play (cb : Nat) (ok : Bool)
  /-- The current source finishes playback and its `ended` event fires. -/
  | ended
  /-- `stopGlobalAudio()`. -/
  | stop
deriving DecidableEq

/-- `stopGlobalAudio`: `onended = null`, stop, disconnect, release. The
suppressed handler can never fire afterwards. -/
def cbStop (m : CbState) : CbState :=
  match m.src with
  | some _ => { m with src := none }
  | none => m

/-- `playGlobalAudio` then `startSource`: stop the previous session, then
either install the new source with its handler, or (construction failure)
invoke the callback directly in the catch branch. -/
def cbPlay (m : CbState) (cb : Nat) (ok : Bool) : CbState :=
  let m1 := cbStop m
  if ok then { m1 with src := some ⟨some cb, false⟩ }
  else { m1 with invoked := m1.invoked ++ [cb] }

/-- The platform fires `ended` on the current source (once): the installed
handler, if any, runs. -/
def cbEnded (m : CbState) : CbState :=
  match m.src with
  | some sc =>
    if sc.fired then m
    else
      match sc.handler with
      | some cb =>
          { m with src := some ⟨sc.handler, true⟩, invoked := m.invoked ++ [cb] }
      | none => { m with src := some ⟨sc.handler, true⟩ }
  | none => m

def cbStep (m : CbState) : AudioOp → CbState
  | AudioOp.play cb ok => cbPlay m cb ok
  | AudioOp.ended => cbEnded m
  | AudioOp.stop => cbStop m

def cbRun (ops : List AudioOp) : CbState :=
  ops.foldl cbStep ⟨none, []⟩

/-- Whether an operation refers to callback `cb`. -/
def mentionsCb (cb : Nat) : AudioOp → Bool
  | AudioOp.play c _ => c == cb
  | _ => false

/-! ## TTS proxy text truncation (src/api/generate-tts.js lines 57-69,
src/unnamed/part_004 lines 54-66)

`text.split('.')`, then sentences are re-accumulated (each with its dot)
while the accumulated length stays strictly below the bound; an empty
accumulation falls back to `text.substring(0, bound)`. The bound is 350 in
src/api/generate-tts.js and 300 in src/unnamed/part_004. -/

/-- `text.split('.')`: the list of (possibly empty) dot-free segments. -/
def splitDot : List Char → List (List Char)
  | [] => [[]]
  | c :: rest =>
    if c = '.' then [] :: splitDot rest
    else
      match splitDot rest with
      | g :: gs => (c :: g) :: gs
      | [] => [[c]]

/-- Re-join an initial run of segments, appending `'.'` after each, exactly
as the accumulation loop concatenates `part + "."`. -/
def joinDots (parts : List (List Char)) : List Char :=
  parts.foldl (fun acc p => acc ++ p ++ ['.']) []

/-- The accumulation loop: `for (const part of parts) if
(truncated.length + part.length < bound) truncated += part + "."; else
break`. -/
def truncGo (bound : Nat) : List (List Char) → List Char → List Char
  | [], acc => acc
  | p :: rest, acc =>
    if acc.length + p.length < bound then truncGo bound rest (acc ++ p ++ ['.'])
    else acc

/-- The whole truncation step of the proxy handler. -/
def truncateText (bound : Nat) (t : List Char) : List Char :=
  if bound < t.length then
    let truncated := truncGo bound (splitDot t) []
    if truncated.isEmpty then t.take bound else truncated
  else t

/-! ## Proxy handlers (src/api/generate-tts.js, src/api/narada.js)

Both handlers are modelled as pure functions of the request method, the
credential environment variables (in the order the code reads them, with a
missing variable represented by the empty string), the parsed request `text`
field, and the upstream API outcome (`none` when the remote call throws,
`some reply` for a response whose extracted payload is `reply`; an empty
payload makes the handler throw and answer 500 as well). -/

structure ApiResponse where
  status : Nat
  base64Audio : Option String := none
  text : Option String := none
  error : Option String := none
deriving DecidableEq

/-- `String.prototype.trim` on `String` (via `trimChars`). -/
def jsTrim (s : String) : String := String.mk (trimChars s.toList)

/-- `(A || B || C || D || E || "").trim()`: the first non-empty credential,
trimmed. -/
def firstApiKey (env : List String) : String :=
  jsTrim ((env.find? fun v => v ≠ "").getD "")

/-! ### Greeting normalization (src/api/narada.js lines 98-108) -/

/-- Case-insensitive literal match: consume `pat` (given lowercase) from the
head of `l`, comparing lowercased characters. -/
def stripCI : List Char → List Char → Option (List Char)
  | [], l => some l
  | _ :: _, [] => none
  | p :: ps, c :: cs => if c.toLower = p then stripCI ps cs else none

/-- One attempt of `/Govinda!\s*Govinda!/gi` at the head of the text:
the literal, greedy whitespace, the literal again. (A shorter whitespace
run would leave a whitespace character where `G` is required, so greediness
never needs backtracking.) -/
def matchGreetingAt (l : List Char) : Option (List Char) :=
  match stripCI "govinda!".toList l with
  | none => none
  | some r1 => stripCI "govinda!".toList (r1.dropWhile isSpaceChar)

/-- `generatedText.replace(/Govinda!\s*Govinda!/gi, "")`: delete every
match of the left-to-right global scan. Fuel is the text length (every
match consumes at least one character). -/
def removeGreetingsAux : Nat → List Char → List Char
  | 0, l => l
  | _ + 1, [] => []
  | fuel + 1, c :: rest =>
    match matchGreetingAt (c :: rest) with
    | some r => removeGreetingsAux fuel r
    | none => c :: removeGreetingsAux fuel rest

def removeGreetings (l : List Char) : List Char :=
  removeGreetingsAux l.length l

/-- Count the matches of the same global scan (to state normalization). -/
def countGreetingsAux : Nat → List Char → Nat
  | 0, _ => 0
  | _ + 1, [] => 0
  | fuel + 1, c :: rest =>
    match matchGreetingAt (c :: rest) with
    | some r => countGreetingsAux fuel r + 1
    | none => countGreetingsAux fuel rest

def countGreetings (l : List Char) : Nat :=
  countGreetingsAux l.length l

/-- The reply post-processing of the chat proxy: remove every greeting
match, trim, and prepend `"Govinda! Govinda!\n"` exactly once. -/
def cleanReply (s : String) : String :=
  String.mk ("Govinda! Govinda!\n".toList ++ trimChars (removeGreetings s.toList))

/-- `src/api/generate-tts.js` handler. A missing `text` field and an empty
string are both falsy in `if (!text)`, modelled as `text.getD "" = ""`; an
upstream failure (`none`, the remote call throwing) and an upstream reply
with falsy extracted audio are both answered 500 from the catch branch,
modelled as `upstream.getD "" = ""`. -/
def generateTtsHandler (method : String) (env : List String)
    (text : Option String) (upstream : Option String) : ApiResponse :=
  if method = "OPTIONS" then { status := 200 }
  else if method ≠ "POST" then { status := 405, error := some "Method Not Allowed" }
  else if firstApiKey env = "" then
    { status := 500, error := some "Server Configuration Error" }
  else if text.getD "" = "" then { status := 400, error := some "No text provided" }
  else if upstream.getD "" = "" then
    { status := 500, error := some "Failed to generate speech" }
  else { status := 200, base64Audio := some (upstream.getD "") }

/-- `src/api/narada.js` handler, same request scaffolding; a successful
upstream reply is post-processed by `cleanReply` (the map-link extraction is
dropped: the claims do not concern it). -/
def naradaHandler (method : String) (env : List String)
    (text : Option String) (upstream : Option String) : ApiResponse :=
  if method = "OPTIONS" then { status := 200 }
  else if method ≠ "POST" then { status := 405, error := some "Method Not Allowed" }
  else if firstApiKey env = "" then
    { status := 500, error := some "Server Configuration Error" }
  else if text.getD "" = "" then { status := 400, error := some "No text provided" }
  else if upstream.getD "" = "" then
    { status := 500, error := some "Failed to generate response" }
  else { status := 200, text := some (cleanReply (upstream.getD "")) }
/-! ## Theorems -/

theorem toInt16_bounds (lo hi : Nat) (hlo : lo < 256) (hhi : hi < 256) :
    -32768 ≤ toInt16 lo hi ∧ toInt16 lo hi ≤ 32767 := by
  unfold toInt16
  dsimp only
  split <;> omega

theorem bytesToInt16_bounds (data : List Nat) (h : ∀ b ∈ data, b < 256) :
    ∀ v ∈ bytesToInt16 data, -32768 ≤ v ∧ v ≤ 32767 := by
  induction data using bytesToInt16.induct with
  | case1 lo hi rest ih =>
    intro v hv
    simp only [bytesToInt16, List.mem_cons] at hv
    rcases hv with rfl | hv
    · exact toInt16_bounds lo hi (h lo (by simp)) (h hi (by simp))
    · exact ih (fun b hb => h b (by simp [hb])) v hv
  | case2 l h1 => simp [bytesToInt16] at *

theorem normalizeUniform_mem_Icc (v : Int)
    (h1 : -32768 ≤ v) (h2 : v ≤ 32767) :
    -1 ≤ normalizeUniform v ∧ normalizeUniform v ≤ 1 := by
  unfold normalizeUniform
  constructor
  · rw [le_div_iff₀ (by norm_num : (0:ℚ) < 32768)]
    have : (-32768 : ℚ) ≤ (v : ℚ) := by exact_mod_cast h1
    linarith
  · rw [div_le_one (by norm_num : (0:ℚ) < 32768)]
    have : (v : ℚ) ≤ 32767 := by exact_mod_cast h2
    linarith

theorem normalizeAsym_mem_Icc (v : Int)
    (h1 : -32768 ≤ v) (h2 : v ≤ 32767) :
    -1 ≤ normalizeAsym v ∧ normalizeAsym v ≤ 1 := by
  unfold normalizeAsym
  by_cases hneg : v < 0
  · rw [if_pos hneg]
    have hv : (-32768 : ℚ) ≤ (v : ℚ) := by exact_mod_cast h1
    have hv2 : (v : ℚ) < 0 := by exact_mod_cast hneg
    constructor
    · rw [le_div_iff₀ (by norm_num : (0:ℚ) < 32768)]; linarith
    · rw [div_le_one (by norm_num : (0:ℚ) < 32768)]; linarith
  · rw [if_neg hneg]
    have hv : (0 : ℚ) ≤ (v : ℚ) := by
      exact_mod_cast not_lt.mp hneg
    have hv2 : (v : ℚ) ≤ 32767 := by exact_mod_cast h2
    constructor
    · rw [le_div_iff₀ (by norm_num : (0:ℚ) < 32767)]; linarith
    · rw [div_le_one (by norm_num : (0:ℚ) < 32767)]; linarith

theorem decodeB64Char_b64char : ∀ n : Fin 64,
    decodeB64Char (b64char n.val) = some n.val := by decide

theorem b64char_ne_eq : ∀ n : Fin 64, b64char n.val ≠ '=' := by decide

theorem b64char_not_space : ∀ n : Fin 64, isSpaceChar (b64char n.val) = false := by
  decide

theorem btoa_chars (bs : List Nat) (hb : ∀ b ∈ bs, b < 256) :
    ∀ c ∈ btoa bs, (∃ n : Fin 64, c = b64char n.val) ∨ c = '=' := by
  induction bs using btoa.induct with
  | case1 => intro c hc; simp [btoa] at hc
  | case2 a =>
    have ha : a < 256 := hb a (by simp)
    intro c hc
    simp only [btoa, List.mem_cons, List.not_mem_nil, or_false] at hc
    rcases hc with rfl | rfl | rfl | rfl
    · exact Or.inl ⟨⟨a / 4, by omega⟩, rfl⟩
    · exact Or.inl ⟨⟨a % 4 * 16, by omega⟩, rfl⟩
    · exact Or.inr rfl
    · exact Or.inr rfl
  | case3 a b =>
    have ha : a < 256 := hb a (by simp)
    have hbb : b < 256 := hb b (by simp)
    intro c hc
    simp only [btoa, List.mem_cons, List.not_mem_nil, or_false] at hc
    rcases hc with rfl | rfl | rfl | rfl
    · exact Or.inl ⟨⟨a / 4, by omega⟩, rfl⟩
    · exact Or.inl ⟨⟨a % 4 * 16 + b / 16, by omega⟩, rfl⟩
    · exact Or.inl ⟨⟨b % 16 * 4, by omega⟩, rfl⟩
    · exact Or.inr rfl
  | case4 a b c rest ih =>
    have ha : a < 256 := hb a (by simp)
    have hbb : b < 256 := hb b (by simp)
    have hc256 : c < 256 := hb c (by simp)
    intro x hx
    simp only [btoa, List.mem_cons] at hx
    rcases hx with rfl | rfl | rfl | rfl | hx
    · exact Or.inl ⟨⟨a / 4, by omega⟩, rfl⟩
    · exact Or.inl ⟨⟨a % 4 * 16 + b / 16, by omega⟩, rfl⟩
    · exact Or.inl ⟨⟨b % 16 * 4 + c / 64, by omega⟩, rfl⟩
    · exact Or.inl ⟨⟨c % 64, by omega⟩, rfl⟩
    · exact ih (fun y hy => hb y (by simp [hy])) x hx

theorem btoa_filter_spaces (bs : List Nat) (hb : ∀ b ∈ bs, b < 256) :
    (btoa bs).filter (fun c => !isSpaceChar c) = btoa bs := by
  rw [List.filter_eq_self]
  intro c hc
  rcases btoa_chars bs hb c hc with ⟨n, rfl⟩ | rfl
  · simp [b64char_not_space n]
  · decide

theorem atob_btoa (bs : List Nat) (hb : ∀ b ∈ bs, b < 256) :
    atob (btoa bs) = some bs := by
  induction bs using btoa.induct with
  | case1 => rfl
  | case2 a =>
    have ha : a < 256 := hb a (by simp)
    have h1 := decodeB64Char_b64char ⟨a / 4, by omega⟩
    have h2 := decodeB64Char_b64char ⟨a % 4 * 16, by omega⟩
    simp [btoa, atob, atobGroup1, h1, h2]
    omega
  | case3 a b =>
    have ha : a < 256 := hb a (by simp)
    have hbb : b < 256 := hb b (by simp)
    have h1 := decodeB64Char_b64char ⟨a / 4, by omega⟩
    have h2 := decodeB64Char_b64char ⟨a % 4 * 16 + b / 16, by omega⟩
    have h3 := decodeB64Char_b64char ⟨b % 16 * 4, by omega⟩
    have hne : b64char (b % 16 * 4) ≠ '=' := b64char_ne_eq ⟨b % 16 * 4, by omega⟩
    simp [btoa, atob, atobGroup1, atobGroup2, h1, h2, h3, hne]
    refine ⟨by omega, by omega⟩
  | case4 a b c rest ih =>
    have ha : a < 256 := hb a (by simp)
    have hbb : b < 256 := hb b (by simp)
    have hc256 : c < 256 := hb c (by simp)
    have h1 := decodeB64Char_b64char ⟨a / 4, by omega⟩
    have h2 := decodeB64Char_b64char ⟨a % 4 * 16 + b / 16, by omega⟩
    have h3 := decodeB64Char_b64char ⟨b % 16 * 4 + c / 64, by omega⟩
    have h4 := decodeB64Char_b64char ⟨c % 64, by omega⟩
    have hne3 : b64char (b % 16 * 4 + c / 64) ≠ '=' :=
      b64char_ne_eq ⟨b % 16 * 4 + c / 64, by omega⟩
    have hne4 : b64char (c % 64) ≠ '=' := b64char_ne_eq ⟨c % 64, by omega⟩
    have ihh := ih (fun y hy => hb y (by simp [hy]))
    simp [btoa, atob, h1, h2, h3, h4, hne3, hne4, ihh]
    refine ⟨by omega, by omega, by omega⟩

/-! ## Helper lemmas -/

theorem getD_sample_bounds (l : List Int) (k : Nat)
    (h : ∀ v ∈ l, -32768 ≤ v ∧ v ≤ 32767) :
    -32768 ≤ l.getD k 0 ∧ l.getD k 0 ≤ 32767 := by
  by_cases hk : k < l.length
  · rw [List.getD_eq_getElem l 0 hk]
    exact h _ (l.getElem_mem hk)
  · rw [List.getD_eq_default l 0 (Nat.le_of_not_lt hk)]
    norm_num

theorem truncGo_length (bound : Nat) (parts : List (List Char))
    (acc : List Char) (hacc : acc.length ≤ bound) :
    (truncGo bound parts acc).length ≤ bound := by
  induction parts generalizing acc with
  | nil => simpa [truncGo] using hacc
  | cons p rest ih =>
    rw [truncGo]
    split
    · rename_i hlt
      exact ih _ (by simp; omega)
    · exact hacc

theorem foldl_joinDots (l : List (List Char)) (a : List Char) :
    l.foldl (fun acc p => acc ++ p ++ ['.']) a = a ++ joinDots l := by
  induction l generalizing a with
  | nil => simp [joinDots]
  | cons q l ih =>
    rw [List.foldl_cons, ih]
    have hr : joinDots (q :: l) = (q ++ ['.']) ++ joinDots l := by
      show (q :: l).foldl (fun acc p => acc ++ p ++ ['.']) [] = _
      rw [List.foldl_cons, ih]
      simp
    rw [hr]
    simp

theorem truncGo_joinDots (bound : Nat) (parts : List (List Char))
    (acc : List Char) :
    ∃ k, truncGo bound parts acc = acc ++ joinDots (parts.take k) := by
  induction parts generalizing acc with
  | nil => exact ⟨0, by simp [truncGo, joinDots]⟩
  | cons p rest ih =>
    rw [truncGo]
    split
    · obtain ⟨k, hk⟩ := ih (acc ++ p ++ ['.'])
      refine ⟨k + 1, ?_⟩
      rw [hk, List.take_succ_cons]
      have hj : joinDots (p :: rest.take k) = (p ++ ['.']) ++ joinDots (rest.take k) := by
        show (p :: rest.take k).foldl (fun acc q => acc ++ q ++ ['.']) [] = _
        rw [List.foldl_cons, foldl_joinDots]
        simp
      rw [hj]
      simp
    · exact ⟨0, by simp [joinDots]⟩

theorem removeGreetingsAux_noMatch (fuel : Nat) (l : List Char)
    (hf : l.length ≤ fuel)
    (h : ∀ i < l.length, matchGreetingAt (l.drop i) = none) :
    removeGreetingsAux fuel l = l := by
  induction fuel generalizing l with
  | zero => rw [removeGreetingsAux]
  | succ fuel ih =>
    match l with
    | [] => rfl
    | c :: rest =>
      rw [removeGreetingsAux]
      have h0 := h 0 (by simp)
      simp only [List.drop_zero] at h0
      rw [h0]
      show c :: removeGreetingsAux fuel rest = c :: rest
      congr 1
      refine ih rest (by simpa using hf) ?_
      intro i hi
      have := h (i + 1) (by simpa using hi)
      simpa using this

theorem cbStop_src (m : CbState) : (cbStop m).src = none := by
  unfold cbStop
  match m with
  | ⟨none, inv⟩ => rfl
  | ⟨some sc, inv⟩ => rfl

theorem cbStop_invoked (m : CbState) : (cbStop m).invoked = m.invoked := by
  unfold cbStop
  match m with
  | ⟨none, inv⟩ => rfl
  | ⟨some sc, inv⟩ => rfl

theorem cbStep_safe (m : CbState) (op : AudioOp) (cb : Nat)
    (hop : mentionsCb cb op = false) (hm : m.src ≠ some ⟨some cb, false⟩) :
    (cbStep m op).invoked.count cb = m.invoked.count cb ∧
    (cbStep m op).src ≠ some ⟨some cb, false⟩ := by
  match op with
  | AudioOp.play c ok =>
    have hc : c ≠ cb := by simpa [mentionsCb] using hop
    match ok with
    | true =>
      constructor
      · show ({ cbStop m with src := some ⟨some c, false⟩ } : CbState).invoked.count cb = _
        rw [cbStop_invoked]
      · show some (⟨some c, false⟩ : SourceCb) ≠ some ⟨some cb, false⟩
        simp [hc]
    | false =>
      constructor
      · show ((cbStop m).invoked ++ [c]).count cb = _
        rw [List.count_append, cbStop_invoked]
        simp [List.count_singleton', hc]
      · show ({ cbStop m with invoked := (cbStop m).invoked ++ [c] } : CbState).src ≠ _
        rw [show ({ cbStop m with invoked := (cbStop m).invoked ++ [c] } : CbState).src
            = (cbStop m).src from rfl, cbStop_src]
        simp
  | AudioOp.ended =>
    show (cbEnded m).invoked.count cb = _ ∧ (cbEnded m).src ≠ _
    unfold cbEnded
    match hsrc : m.src with
    | none => exact ⟨rfl, hm⟩
    | some ⟨handler, fired⟩ =>
      match fired with
      | true => exact ⟨rfl, hm⟩
      | false =>
        match handler with
        | none => exact ⟨rfl, by simp⟩
        | some c =>
          have hc : c ≠ cb := by
            intro hcontra
            rw [hsrc, hcontra] at hm
            exact hm rfl
          constructor
          · show (m.invoked ++ [c]).count cb = _
            rw [List.count_append]
            simp [List.count_singleton', hc]
          · simp [hc]
  | AudioOp.stop =>
    show (cbStop m).invoked.count cb = _ ∧ (cbStop m).src ≠ _
    rw [cbStop_invoked, cbStop_src]
    simp

theorem cbSteps_preserve (ops : List AudioOp) (cb : Nat)
    (hops : ∀ op ∈ ops, mentionsCb cb op = false) (m : CbState)
    (hm : m.src ≠ some ⟨some cb, false⟩) :
    (ops.foldl cbStep m).invoked.count cb = m.invoked.count cb ∧
    (ops.foldl cbStep m).src ≠ some ⟨some cb, false⟩ := by
  induction ops generalizing m with
  | nil => exact ⟨rfl, hm⟩
  | cons op rest ih =>
    have hop : mentionsCb cb op = false := hops op (by simp)
    have hrest : ∀ o ∈ rest, mentionsCb cb o = false :=
      fun o ho => hops o (by simp [ho])
    rw [List.foldl_cons]
    obtain ⟨h1, h2⟩ := cbStep_safe m op cb hop hm
    obtain ⟨h3, h4⟩ := ih hrest _ h2
    exact ⟨h3.trans h1, h4⟩

theorem stopGlobalAudio_spec (s : EngineState) (h : EngineWf s) :
    stopGlobalAudio s = ⟨[], none, none, false, s.nextId⟩ := by
  obtain ⟨h1, _, _, _⟩ := h
  unfold stopGlobalAudio stopNativeAudio stopKeepAlive disconnectSrc
  cases hk : s.keepAliveSource with
  | none =>
    cases hg : s.globalSource with
    | none =>
      simp only
      rw [hk]
      simp only [EngineState.mk.injEq]
      refine ⟨?_, trivial, trivial, trivial, trivial⟩
      rw [List.eq_nil_iff_forall_not_mem]
      intro i hi
      rcases h1 i hi with hc | hc
      · rw [hg] at hc; exact Option.noConfusion hc
      · rw [hk] at hc; exact Option.noConfusion hc
    | some g =>
      simp only
      rw [hk]
      simp only [EngineState.mk.injEq]
      refine ⟨?_, trivial, trivial, trivial, trivial⟩
      rw [List.filter_eq_nil_iff]
      intro i hi
      rcases h1 i hi with hc | hc
      · rw [hg] at hc
        simp [Option.some.inj hc]
      · rw [hk] at hc; exact Option.noConfusion hc
  | some k =>
    cases hg : s.globalSource with
    | none =>
      simp only
      simp only [EngineState.mk.injEq]
      refine ⟨?_, trivial, trivial, trivial, trivial⟩
      rw [List.filter_eq_nil_iff]
      intro i hi
      rcases h1 i hi with hc | hc
      · rw [hg] at hc; exact Option.noConfusion hc
      · rw [hk] at hc
        simp [Option.some.inj hc]
    | some g =>
      simp only
      simp only [EngineState.mk.injEq]
      refine ⟨?_, trivial, trivial, trivial, trivial⟩
      rw [List.filter_eq_nil_iff]
      intro i hi
      rw [List.mem_filter] at hi
      rcases h1 i hi.1 with hc | hc
      · rw [hg] at hc
        simp [Option.some.inj hc]
      · rw [hk] at hc
        have := hi.2
        simp [Option.some.inj hc] at this

/-! ## Claim theorems -/

/-- C1: every call to `playGlobalAudio` first fully stops the previous
playback session — the buffer source, the keep-alive source and the native
utterance sequence are all stopped, disconnected and released — before the
new (fresh) buffer source is created and connected, so that from the stop on
at most one buffer source is ever connected to the output destination. -/
theorem play_stops_previous_session (s : EngineState) (h : EngineWf s) :
    stopGlobalAudio s = ⟨[], none, none, false, s.nextId⟩ ∧
    playGlobalAudio s = ⟨[s.nextId], some s.nextId, none, false, s.nextId + 1⟩ ∧
    s.nextId ∉ s.connected ∧
    (∀ t ∈ (playGlobalAudioTrace s).tail, t.connected.length ≤ 1) ∧
    EngineWf (playGlobalAudio s) := by
  have hstop := stopGlobalAudio_spec s h
  have hplay : playGlobalAudio s = ⟨[s.nextId], some s.nextId, none, false, s.nextId + 1⟩ := by
    unfold playGlobalAudio
    rw [hstop]
    rfl
  refine ⟨hstop, hplay, ?_, ?_, ?_⟩
  · intro hmem
    exact absurd (h.2.2.2 _ hmem) (by omega)
  · intro t ht
    simp only [playGlobalAudioTrace, List.tail_cons, List.mem_cons,
      List.not_mem_nil, or_false] at ht
    rcases ht with rfl | rfl
    · rw [hstop]
      simp
    · rw [hplay]
      simp
  · rw [hplay]
    refine ⟨?_, ?_, ?_, ?_⟩
    · intro i hi
      simp only [List.mem_singleton] at hi
      subst hi
      exact Or.inl rfl
    · intro i hi
      have hii : s.nextId = i := Option.some.inj hi
      subst hii
      simp
    · intro i hi
      exact Option.noConfusion hi
    · intro i hi
      simp only [List.mem_singleton] at hi
      subst hi
      exact Nat.lt_succ_self s.nextId

/-- Witness for C1 at a concrete state in which a buffer source, a
keep-alive source and a native utterance sequence are all active. -/
theorem play_stops_previous_session_witness :
    EngineWf ⟨[0, 1], some 0, some 1, true, 2⟩ ∧
    playGlobalAudio ⟨[0, 1], some 0, some 1, true, 2⟩ =
      ⟨[2], some 2, none, false, 3⟩ :=
  ⟨by decide, (play_stops_previous_session ⟨[0, 1], some 0, some 1, true, 2⟩
    (by decide)).2.1⟩

/-- C2 counterexample: `playGlobalAudio(buffer, cb1)` followed by a second
`playGlobalAudio(buffer, cb2)` and the second source's natural completion.
`stopGlobalAudio` sets `onended = null` before stopping the first source, so
`cb1` — passed non-null to a successful `playGlobalAudio` call — is invoked
zero times, contradicting "never invoked zero times". -/
theorem onEnded_preempted_counterexample :
    (cbRun [AudioOp.play 1 true, AudioOp.play 2 true, AudioOp.ended]).invoked
      = [2] ∧
    (cbRun [AudioOp.play 1 true, AudioOp.play 2 true, AudioOp.ended]).invoked.count 1
      = 0 := by
  constructor <;> rfl

/-- C2 (amended): for a `playGlobalAudio(buffer, cb)` call with a callback
not used elsewhere, `cb` is invoked at most once; exactly once when source
construction/start throws, and exactly once when the source's `ended` event
fires next; but zero times when the session is preempted first by a
`stopGlobalAudio` or by another `playGlobalAudio` call (whose stop clears
the `onended` handler before stopping the source). -/
theorem onEnded_at_most_once (pre post : List AudioOp) (cb : Nat) (ok : Bool)
    (hpre : ∀ op ∈ pre, mentionsCb cb op = false)
    (hpost : ∀ op ∈ post, mentionsCb cb op = false) :
    (cbRun (pre ++ AudioOp.play cb ok :: post)).invoked.count cb ≤ 1 ∧
    (ok = false →
      (cbRun (pre ++ AudioOp.play cb ok :: post)).invoked.count cb = 1) ∧
    (∀ rest, post = AudioOp.ended :: rest → ok = true →
      (cbRun (pre ++ AudioOp.play cb ok :: post)).invoked.count cb = 1) ∧
    (∀ rest, (post = AudioOp.stop :: rest ∨ ∃ c o, post = AudioOp.play c o :: rest) →
      ok = true →
      (cbRun (pre ++ AudioOp.play cb ok :: post)).invoked.count cb = 0) := by
  have hrun : cbRun (pre ++ AudioOp.play cb ok :: post)
      = post.foldl cbStep (cbPlay (pre.foldl cbStep ⟨none, []⟩) cb ok) := by
    rw [cbRun, List.foldl_append, List.foldl_cons]
    rfl
  obtain ⟨hcount0, hsafe0⟩ := cbSteps_preserve pre cb hpre ⟨none, []⟩ (by simp)
  set m0 := pre.foldl cbStep (⟨none, []⟩ : CbState) with hm0
  have hc0 : m0.invoked.count cb = 0 := by
    rw [hcount0]
    rfl
  match ok with
  | false =>
    have hm1inv : (cbPlay m0 cb false).invoked = m0.invoked ++ [cb] := by
      show ((cbStop m0).invoked ++ [cb]) = _
      rw [cbStop_invoked]
    have hm1src : (cbPlay m0 cb false).src = none := by
      show (cbStop m0).src = none
      exact cbStop_src m0
    have hm1c : (cbPlay m0 cb false).invoked.count cb = 1 := by
      rw [hm1inv, List.count_append, hc0]
      simp
    obtain ⟨hcf, _⟩ := cbSteps_preserve post cb hpost (cbPlay m0 cb false)
      (by rw [hm1src]; simp)
    rw [hrun]
    rw [hcf, hm1c]
    exact ⟨le_refl 1, fun _ => rfl, fun rest _ _ => rfl,
      fun rest _ hok => absurd hok (by simp)⟩
  | true =>
    have hm1 : cbPlay m0 cb true = { cbStop m0 with src := some ⟨some cb, false⟩ } := rfl
    have hm1inv : (cbPlay m0 cb true).invoked = m0.invoked := by
      rw [hm1]
      show (cbStop m0).invoked = _
      exact cbStop_invoked m0
    have hm1c : (cbPlay m0 cb true).invoked.count cb = 0 := by
      rw [hm1inv, hc0]
    refine ⟨?_, by intro h; exact absurd h (by simp), ?_, ?_⟩
    · -- at most once, for an arbitrary continuation
      rw [hrun]
      match post with
      | [] => rw [List.foldl_nil, hm1c]; omega
      | op :: rest =>
        have hoprest : ∀ o ∈ rest, mentionsCb cb o = false :=
          fun o ho => hpost o (by simp [ho])
        rw [List.foldl_cons]
        match op with
        | AudioOp.play c o =>
          have hc : c ≠ cb := by
            have := hpost (AudioOp.play c o) (by simp)
            simpa [mentionsCb] using this
          have hsrc : (cbStep (cbPlay m0 cb true) (AudioOp.play c o)).src
              ≠ some ⟨some cb, false⟩ := by
            show (cbPlay (cbPlay m0 cb true) c o).src ≠ _
            match o with
            | true =>
              show some (⟨some c, false⟩ : SourceCb) ≠ _
              simp [hc]
            | false =>
              show (cbStop (cbPlay m0 cb true)).src ≠ _
              rw [cbStop_src]
              simp
          have hcnt : (cbStep (cbPlay m0 cb true) (AudioOp.play c o)).invoked.count cb = 0 := by
            show (cbPlay (cbPlay m0 cb true) c o).invoked.count cb = 0
            match o with
            | true =>
              show ((cbStop (cbPlay m0 cb true)).invoked).count cb = 0
              rw [cbStop_invoked, hm1c]
            | false =>
              show ((cbStop (cbPlay m0 cb true)).invoked ++ [c]).count cb = 0
              rw [List.count_append, cbStop_invoked, hm1c]
              simp [List.count_singleton', hc]
          obtain ⟨hcf, _⟩ := cbSteps_preserve rest cb hoprest _ hsrc
          rw [hcf, hcnt]
          omega
        | AudioOp.ended =>
          have hstep : cbStep (cbPlay m0 cb true) AudioOp.ended
              = { src := some ⟨some cb, true⟩,
                  invoked := (cbPlay m0 cb true).invoked ++ [cb] } := by
            show cbEnded (cbPlay m0 cb true) = _
            rw [hm1]
            rfl
          have hsrc : (cbStep (cbPlay m0 cb true) AudioOp.ended).src
              ≠ some ⟨some cb, false⟩ := by
            rw [hstep]
            simp
          have hcnt : (cbStep (cbPlay m0 cb true) AudioOp.ended).invoked.count cb = 1 := by
            rw [hstep]
            show ((cbPlay m0 cb true).invoked ++ [cb]).count cb = 1
            rw [List.count_append, hm1c]
            simp
          obtain ⟨hcf, _⟩ := cbSteps_preserve rest cb hoprest _ hsrc
          rw [hcf, hcnt]
        | AudioOp.stop =>
          have hsrc : (cbStep (cbPlay m0 cb true) AudioOp.stop).src
              ≠ some ⟨some cb, false⟩ := by
            show (cbStop (cbPlay m0 cb true)).src ≠ _
            rw [cbStop_src]
            simp
          have hcnt : (cbStep (cbPlay m0 cb true) AudioOp.stop).invoked.count cb = 0 := by
            show (cbStop (cbPlay m0 cb true)).invoked.count cb = 0
            rw [cbStop_invoked, hm1c]
          obtain ⟨hcf, _⟩ := cbSteps_preserve rest cb hoprest _ hsrc
          rw [hcf, hcnt]
          omega
    · -- natural completion: exactly once
      intro rest hr _
      subst hr
      have hoprest : ∀ o ∈ rest, mentionsCb cb o = false :=
        fun o ho => hpost o (by simp [ho])
      rw [hrun, List.foldl_cons]
      have hstep : cbStep (cbPlay m0 cb true) AudioOp.ended
          = { src := some ⟨some cb, true⟩,
              invoked := (cbPlay m0 cb true).invoked ++ [cb] } := by
        show cbEnded (cbPlay m0 cb true) = _
        rw [hm1]
        rfl
      have hsrc : (cbStep (cbPlay m0 cb true) AudioOp.ended).src
          ≠ some ⟨some cb, false⟩ := by
        rw [hstep]
        simp
      have hcnt : (cbStep (cbPlay m0 cb true) AudioOp.ended).invoked.count cb = 1 := by
        rw [hstep]
        show ((cbPlay m0 cb true).invoked ++ [cb]).count cb = 1
        rw [List.count_append, hm1c]
        simp
      obtain ⟨hcf, _⟩ := cbSteps_preserve rest cb hoprest _ hsrc
      rw [hcf, hcnt]
    · -- preempted: never
      intro rest hr _
      rw [hrun]
      rcases hr with hr | ⟨c, o, hr⟩ <;> subst hr
      · have hoprest : ∀ o ∈ rest, mentionsCb cb o = false :=
          fun o ho => hpost o (by simp [ho])
        rw [List.foldl_cons]
        have hsrc : (cbStep (cbPlay m0 cb true) AudioOp.stop).src
            ≠ some ⟨some cb, false⟩ := by
          show (cbStop (cbPlay m0 cb true)).src ≠ _
          rw [cbStop_src]
          simp
        have hcnt : (cbStep (cbPlay m0 cb true) AudioOp.stop).invoked.count cb = 0 := by
          show (cbStop (cbPlay m0 cb true)).invoked.count cb = 0
          rw [cbStop_invoked, hm1c]
        obtain ⟨hcf, _⟩ := cbSteps_preserve rest cb hoprest _ hsrc
        rw [hcf, hcnt]
      · have hoprest : ∀ x ∈ rest, mentionsCb cb x = false :=
          fun x hx => hpost x (by simp [hx])
        have hc : c ≠ cb := by
          have := hpost (AudioOp.play c o) (by simp)
          simpa [mentionsCb] using this
        rw [List.foldl_cons]
        have hsrc : (cbStep (cbPlay m0 cb true) (AudioOp.play c o)).src
            ≠ some ⟨some cb, false⟩ := by
          show (cbPlay (cbPlay m0 cb true) c o).src ≠ _
          match o with
          | true =>
            show some (⟨some c, false⟩ : SourceCb) ≠ _
            simp [hc]
          | false =>
            show (cbStop (cbPlay m0 cb true)).src ≠ _
            rw [cbStop_src]
            simp
        have hcnt : (cbStep (cbPlay m0 cb true) (AudioOp.play c o)).invoked.count cb = 0 := by
          show (cbPlay (cbPlay m0 cb true) c o).invoked.count cb = 0
          match o with
          | true =>
            show ((cbStop (cbPlay m0 cb true)).invoked).count cb = 0
            rw [cbStop_invoked, hm1c]
          | false =>
            show ((cbStop (cbPlay m0 cb true)).invoked ++ [c]).count cb = 0
            rw [List.count_append, cbStop_invoked, hm1c]
            simp [List.count_singleton', hc]
        obtain ⟨hcf, _⟩ := cbSteps_preserve rest cb hoprest _ hsrc
        rw [hcf, hcnt]

/-- Witness for C2 (amended): a single successful play followed by its
natural completion invokes the callback exactly once. -/
theorem onEnded_at_most_once_witness :
    (cbRun [AudioOp.play 5 true, AudioOp.ended]).invoked.count 5 = 1 :=
  (onEnded_at_most_once [] [AudioOp.ended] 5 true (by simp)
    (by intro op hop; simp at hop; subst hop; rfl)).2.2.1 [] rfl rfl

/-- C3 counterexample: in the revision of `decodeAudioData` inside
`src/utils/audio.ts` (lines 568-586, cited by the claim), the bytes
`0xFF 0x7F` — the sample value 32767 — decode to `32767 / 32768`, not to
`1.0`: that revision divides every sample by 32768, not asymmetrically. -/
theorem decodeAudioData_uniform_counterexample :
    decodeAudioData [255, 127] 1 = [[(32767 : ℚ) / 32768]] ∧
    decodeAudioData [255, 127] 1 ≠ [[(1 : ℚ)]] := by
  constructor
  · rfl
  · intro h
    have h2 : [[(32767 : ℚ) / 32768]] = [[(1 : ℚ)]] :=
      Eq.trans (by rfl) h
    simp only [List.cons.injEq, and_true] at h2
    norm_num at h2

/-- C3 (amended): the `decodeAudioData` revisions in `src/unnamed/part_000`
and `src/unnamed/part_003` normalize asymmetrically — each sample `v` maps
to `v / 32768` when negative and `v / 32767` when non-negative, so 32767
maps exactly to 1.0 and -32768 to -1.0 — while the revision in
`src/utils/audio.ts` divides every sample by 32768, mapping 32767 to
`32767 / 32768` (and -32768 still to -1.0). -/
theorem decodeAudioData_normalization (data : List Nat) :
    (decodeAudioDataP0 data = (bytesToInt16 data).map fun v : Int =>
      if v < 0 then (v : ℚ) / 32768 else (v : ℚ) / 32767) ∧
    decodeAudioDataP0 [255, 127] = [(1 : ℚ)] ∧
    decodeAudioDataP0 [0, 128] = [(-1 : ℚ)] ∧
    decodeAudioDataP3 [255, 127] 1 = [[(1 : ℚ)]] ∧
    decodeAudioDataP3 [0, 128] 1 = [[(-1 : ℚ)]] ∧
    decodeAudioData [255, 127] 1 = [[(32767 : ℚ) / 32768]] ∧
    decodeAudioData [0, 128] 1 = [[(-1 : ℚ)]] := by
  have e1 : toInt16 255 127 = 32767 := by norm_num [toInt16]
  have e2 : toInt16 0 128 = -32768 := by norm_num [toInt16]
  have n1 : normalizeAsym 32767 = 1 := by norm_num [normalizeAsym]
  have n2 : normalizeAsym (-32768) = -1 := by norm_num [normalizeAsym]
  have u2 : normalizeUniform (-32768) = -1 := by norm_num [normalizeUniform]
  refine ⟨rfl, ?_, ?_, ?_, ?_, rfl, ?_⟩
  · show [normalizeAsym (toInt16 255 127)] = [(1 : ℚ)]
    rw [e1, n1]
  · show [normalizeAsym (toInt16 0 128)] = [(-1 : ℚ)]
    rw [e2, n2]
  · show [[normalizeAsym (toInt16 255 127)]] = [[(1 : ℚ)]]
    rw [e1, n1]
  · show [[normalizeAsym (toInt16 0 128)]] = [[(-1 : ℚ)]]
    rw [e2, n2]
  · show [[normalizeUniform (toInt16 0 128)]] = [[(-1 : ℚ)]]
    rw [e2, u2]

/-- C4: decoding the base64 string produced by encoding any byte array
returns the original byte array. -/
theorem decode_encode_roundtrip (bytes : List Nat)
    (h : ∀ b ∈ bytes, b < 256) :
    decode (encode bytes) = some bytes := by
  rw [encode, decode, btoa_filter_spaces bytes h]
  exact atob_btoa bytes h

/-- Witness for C4 on a concrete byte array. -/
theorem decode_encode_roundtrip_witness :
    decode (encode [0, 1, 2, 254, 255]) = some [0, 1, 2, 254, 255] :=
  decode_encode_roundtrip [0, 1, 2, 254, 255] (by decide)

/-- C5: every sample written by `decodeAudioData` — in the
`src/utils/audio.ts` revision for any channel count, and in the
`src/unnamed/part_000` revision — lies within the closed interval
`[-1, 1]`. -/
theorem decoded_samples_in_range (data : List Nat)
    (h : ∀ b ∈ data, b < 256) (numChannels : Nat) :
    (∀ chl ∈ decodeAudioData data numChannels, ∀ x ∈ chl, -1 ≤ x ∧ x ≤ 1) ∧
    (∀ x ∈ decodeAudioDataP0 data, -1 ≤ x ∧ x ≤ 1) := by
  have hbounds := bytesToInt16_bounds data h
  constructor
  · intro chl hchl x hx
    simp only [decodeAudioData, List.mem_map] at hchl
    obtain ⟨ch, _, rfl⟩ := hchl
    simp only [List.mem_map] at hx
    obtain ⟨i, _, rfl⟩ := hx
    have hs := getD_sample_bounds (bytesToInt16 data) (i * numChannels + ch)
      hbounds
    exact normalizeUniform_mem_Icc _ hs.1 hs.2
  · intro x hx
    simp only [decodeAudioDataP0, List.mem_map] at hx
    obtain ⟨v, hv, rfl⟩ := hx
    have hs := hbounds v hv
    exact normalizeAsym_mem_Icc v hs.1 hs.2

/-- Witness for C5 at the concrete two-byte payload for sample 32767. -/
theorem decoded_samples_in_range_witness :
    -1 ≤ normalizeAsym (toInt16 255 127) ∧ normalizeAsym (toInt16 255 127) ≤ 1 :=
  (decoded_samples_in_range [255, 127] (by decide) 1).2
    (normalizeAsym (toInt16 255 127)) (List.mem_singleton.mpr rfl)

/-- C6: `speak("Hello. How are you?", "en", cb)` chunks the text into
exactly `"Hello."` and `"How are you?"`, in that order, submits them
strictly sequentially (the second utterance is submitted only after the
first one's end/error handler has fired), and invokes the completion
callback exactly once, after the second chunk completes. -/
theorem speak_two_chunks_sequential :
    chunkText "Hello. How are you?".toList
      = ["Hello.".toList, "How are you?".toList] ∧
    speak "Hello. How are you?".toList
      = [SpeakEvent.submit "Hello.".toList, SpeakEvent.chunkDone,
         SpeakEvent.submit "How are you?".toList, SpeakEvent.chunkDone,
         SpeakEvent.cbInvoked] ∧
    cbCount (speak "Hello. How are you?".toList) = 1 ∧
    submitCount (speak "Hello. How are you?".toList) = 2 := by
  refine ⟨?_, ?_, ?_, ?_⟩ <;> rfl

/-- C7: `speak("", "en", cb)` produces zero chunks, submits no utterance,
and invokes the completion callback immediately, exactly once. -/
theorem speak_empty_immediate_cb :
    chunkText "".toList = [] ∧
    speak "".toList = [SpeakEvent.cbInvoked] ∧
    submitCount (speak "".toList) = 0 ∧
    cbCount (speak "".toList) = 1 := by
  refine ⟨?_, ?_, ?_, ?_⟩ <;> rfl

/-- C8: the TTS proxy truncation. Text at or under the bound is forwarded
unchanged; longer text is truncated to at most the bound, cut after an
initial sequence of `'.'`-terminated sentences when the first sentence fits
within the bound, and hard-cut at the bound when it does not. The bound is
350 in `src/api/generate-tts.js` and 300 in `src/unnamed/part_004`. -/
theorem tts_truncation_bounded (bound : Nat) (t : List Char) :
    (t.length ≤ bound → truncateText bound t = t) ∧
    (bound < t.length →
      (truncateText bound t).length ≤ bound ∧
      (∀ p ps, splitDot t = p :: ps →
        (¬ p.length < bound → truncateText bound t = t.take bound) ∧
        (p.length < bound → ∃ k, 0 < k ∧
          truncateText bound t = joinDots ((p :: ps).take k)))) := by
  constructor
  · intro hle
    rw [truncateText, if_neg (by omega)]
  · intro hgt
    constructor
    · rw [truncateText, if_pos hgt]
      dsimp only
      split
      · rw [List.length_take]
        omega
      · exact truncGo_length bound (splitDot t) [] (Nat.zero_le bound)
    · intro p ps hsplit
      constructor
      · intro hnofit
        have htr : truncGo bound (splitDot t) [] = [] := by
          rw [hsplit, truncGo, if_neg (by simpa using hnofit)]
        rw [truncateText, if_pos hgt]
        dsimp only
        rw [htr]
        rfl
      · intro hfit
        obtain ⟨k, hk⟩ := truncGo_joinDots bound ps ([] ++ p ++ ['.'])
        have hje : ([] ++ p ++ ['.']) ++ joinDots (ps.take k)
            = joinDots ((p :: ps).take (k + 1)) := by
          rw [List.take_succ_cons]
          have hj : joinDots (p :: ps.take k)
              = (p ++ ['.']) ++ joinDots (ps.take k) := by
            show (p :: ps.take k).foldl (fun acc q => acc ++ q ++ ['.']) [] = _
            rw [List.foldl_cons, foldl_joinDots]
            simp
          rw [hj]
          simp
        have htr : truncGo bound (splitDot t) []
            = joinDots ((p :: ps).take (k + 1)) := by
          rw [hsplit, truncGo, if_pos (by simpa using hfit), hk, hje]
        have hne : ¬ (truncGo bound (splitDot t) []).isEmpty = true := by
          rw [htr, ← hje]
          simp
        rw [truncateText, if_pos hgt]
        dsimp only
        rw [if_neg hne, htr]
        exact ⟨k + 1, Nat.succ_pos k, rfl⟩

/-- Witness for C8 at bound 5: a six-character dotless text is hard-cut at
the bound, and text at the bound passes through unchanged. -/
theorem tts_truncation_bounded_witness :
    truncateText 5 "abcdef".toList = "abcdef".toList.take 5 ∧
    truncateText 5 "ab.c".toList = "ab.c".toList := by
  constructor
  · exact ((tts_truncation_bounded 5 "abcdef".toList).2 (by decide)).2
      "abcdef".toList [] (by decide) |>.1 (by decide)
  · exact (tts_truncation_bounded 5 "ab.c".toList).1 (by decide)

theorem firstApiKey_all_empty (env : List String) (h : ∀ v ∈ env, v = "") :
    firstApiKey env = "" := by
  rw [firstApiKey]
  have hf : env.find? (fun v => v ≠ "") = none := by
    rw [List.find?_eq_none]
    intro v hv
    simp [h v hv]
  rw [hf]
  rfl

/-- C9 counterexample: an OPTIONS request (which is not a POST) is answered
with HTTP 200 by both proxy handlers — the CORS-preflight branch precedes
the method check — contradicting "any request whose method is not POST
returns HTTP 405". -/
theorem proxy_options_counterexample :
    "OPTIONS" ≠ "POST" ∧
    (generateTtsHandler "OPTIONS" ["key"] (some "hello") (some "AAAA")).status = 200 ∧
    (naradaHandler "OPTIONS" ["key"] (some "hello") (some "reply")).status = 200 := by
  refine ⟨by decide, rfl, rfl⟩

/-- C9 (amended): for both proxy handlers — a request whose method is
neither POST nor OPTIONS gets HTTP 405, while OPTIONS (CORS preflight) gets
HTTP 200; a POST with every credential variable empty gets HTTP 500 with the
configuration-error message (this check precedes text validation, so it
wins even when the text is also empty); a POST with a credential present and
empty or missing text gets HTTP 400; and a POST with a credential, non-empty
text and a successful upstream response gets HTTP 200 with `base64Audio`
(TTS proxy) or `text` (chat proxy) populated. -/
theorem proxy_status_codes (method : String) (env : List String)
    (text upstream : Option String) :
    (method ≠ "POST" → method ≠ "OPTIONS" →
      (generateTtsHandler method env text upstream).status = 405 ∧
      (naradaHandler method env text upstream).status = 405) ∧
    ((generateTtsHandler "OPTIONS" env text upstream).status = 200 ∧
      (naradaHandler "OPTIONS" env text upstream).status = 200) ∧
    ((∀ v ∈ env, v = "") →
      (generateTtsHandler "POST" env text upstream).status = 500 ∧
      (generateTtsHandler "POST" env text upstream).error
        = some "Server Configuration Error" ∧
      (naradaHandler "POST" env text upstream).status = 500 ∧
      (naradaHandler "POST" env text upstream).error
        = some "Server Configuration Error") ∧
    (firstApiKey env ≠ "" → (text = none ∨ text = some "") →
      (generateTtsHandler "POST" env text upstream).status = 400 ∧
      (naradaHandler "POST" env text upstream).status = 400) ∧
    (∀ t u, firstApiKey env ≠ "" → t ≠ "" → u ≠ "" →
      (generateTtsHandler "POST" env (some t) (some u)).status = 200 ∧
      (generateTtsHandler "POST" env (some t) (some u)).base64Audio = some u ∧
      (naradaHandler "POST" env (some t) (some u)).status = 200 ∧
      (naradaHandler "POST" env (some t) (some u)).text
        = some (cleanReply u)) := by
  refine ⟨?_, ?_, ?_, ?_, ?_⟩
  · intro hpost hopt
    constructor
    · rw [generateTtsHandler.eq_def, if_neg hopt, if_pos hpost]
    · rw [naradaHandler.eq_def, if_neg hopt, if_pos hpost]
  · constructor
    · rw [generateTtsHandler.eq_def, if_pos rfl]
    · rw [naradaHandler.eq_def, if_pos rfl]
  · intro hempty
    have hkey := firstApiKey_all_empty env hempty
    have hg : generateTtsHandler "POST" env text upstream
        = { status := 500, error := some "Server Configuration Error" } := by
      rw [generateTtsHandler.eq_def, if_neg (by decide), if_neg (by simp),
        if_pos hkey]
    have hn : naradaHandler "POST" env text upstream
        = { status := 500, error := some "Server Configuration Error" } := by
      rw [naradaHandler.eq_def, if_neg (by decide), if_neg (by simp),
        if_pos hkey]
    rw [hg, hn]
    exact ⟨rfl, rfl, rfl, rfl⟩
  · intro hkey htext
    have htxt : text.getD "" = "" := by
      rcases htext with rfl | rfl <;> rfl
    constructor
    · rw [generateTtsHandler.eq_def, if_neg (by decide), if_neg (by simp),
        if_neg hkey, if_pos htxt]
    · rw [naradaHandler.eq_def, if_neg (by decide), if_neg (by simp),
        if_neg hkey, if_pos htxt]
  · intro t u hkey ht hu
    have htxt : ¬ (some t).getD "" = "" := by simpa using ht
    have hup : ¬ (some u).getD "" = "" := by simpa using hu
    have hg : generateTtsHandler "POST" env (some t) (some u)
        = { status := 200, base64Audio := some u } := by
      rw [generateTtsHandler.eq_def, if_neg (by decide), if_neg (by simp),
        if_neg hkey, if_neg htxt, if_neg hup]
      rfl
    have hn : naradaHandler "POST" env (some t) (some u)
        = { status := 200, text := some (cleanReply u) } := by
      rw [naradaHandler.eq_def, if_neg (by decide), if_neg (by simp),
        if_neg hkey, if_neg htxt, if_neg hup]
      rfl
    rw [hg, hn]
    exact ⟨rfl, rfl, rfl, rfl⟩

/-- Witness for C9 (amended) at concrete requests. -/
theorem proxy_status_codes_witness :
    (generateTtsHandler "PUT" ["key"] (some "hello") (some "AAAA")).status = 405 ∧
    (generateTtsHandler "POST" ["", ""] (some "hello") (some "AAAA")).status = 500 ∧
    (generateTtsHandler "POST" ["key"] (some "") (some "AAAA")).status = 400 ∧
    (generateTtsHandler "POST" ["key"] (some "hello") (some "AAAA")).status = 200 := by
  refine ⟨?_, ?_, ?_, ?_⟩
  · exact ((proxy_status_codes "PUT" ["key"] (some "hello") (some "AAAA")).1
      (by decide) (by decide)).1
  · exact ((proxy_status_codes "POST" ["", ""] (some "hello")
      (some "AAAA")).2.2.1 (by decide)).1
  · exact ((proxy_status_codes "POST" ["key"] (some "") (some "AAAA")).2.2.2.1
      (by decide) (Or.inr rfl)).1
  · exact ((proxy_status_codes "POST" ["key"] (some "hello")
      (some "AAAA")).2.2.2.2 "hello" "AAAA" (by decide) (by decide)
      (by decide)).1

/-- C10: for every non-empty upstream reply accepted by the chat proxy, the
returned `text` field is `cleanReply` of the reply, which always begins with
`"Govinda! Govinda!"` at position 0 followed by a newline — whether the
reply contained the greeting zero times or many times. A reply with no
greeting match keeps its (trimmed) body intact after the prepended greeting,
and the doubled-greeting reply is normalized to a single leading
occurrence. -/
theorem chat_greeting_normalized :
    (∀ (env : List String) (t u : String),
      firstApiKey env ≠ "" → t ≠ "" → u ≠ "" →
      (naradaHandler "POST" env (some t) (some u)).text = some (cleanReply u)) ∧
    (∀ s : String,
      (cleanReply s).toList.take 18 = "Govinda! Govinda!\n".toList) ∧
    (∀ s : List Char,
      (∀ i < s.length, matchGreetingAt (s.drop i) = none) →
      cleanReply (String.mk s)
        = String.mk ("Govinda! Govinda!\n".toList ++ trimChars s)) ∧
    countGreetings
      (cleanReply "Govinda! Govinda! Draft. Govinda! Govinda! Final.").toList
      = 1 := by
  refine ⟨?_, ?_, ?_, ?_⟩
  · intro env t u hkey ht hu
    rw [naradaHandler.eq_def, if_neg (by decide), if_neg (by simp),
      if_neg hkey, if_neg (show ¬ (some t).getD "" = "" by simpa using ht),
      if_neg (show ¬ (some u).getD "" = "" by simpa using hu)]
    rfl
  · intro s
    show ("Govinda! Govinda!\n".toList
      ++ trimChars (removeGreetings s.toList)).take 18 = _
    rw [show (18 : Nat) = "Govinda! Govinda!\n".toList.length from rfl]
    exact List.take_left _ _
  · intro s hs
    rw [cleanReply]
    congr 1
    show _ ++ trimChars (removeGreetings s) = _
    rw [removeGreetings, removeGreetingsAux_noMatch s.length s (le_refl _) ?_]
    intro i _
    by_cases hi : i < s.length
    · exact hs i hi
    · rw [List.drop_eq_nil_of_le (by omega)]
      rfl
  · rfl

/-- Witness for C10 at a concrete request and upstream reply. -/
theorem chat_greeting_normalized_witness :
    (naradaHandler "POST" ["key"] (some "who are you")
        (some "I am Narada.")).text = some (cleanReply "I am Narada.") :=
  chat_greeting_normalized.1 ["key"] "who are you" "I am Narada."
    (by decide) (by decide) (by decide)

end GovindaMitra
